import Mathlib

/-!
Verification of the censoring/rounding logprob derivation in `pymc/logprob/censoring.py`.

The module rewrites `clip`/`round`/`floor`/`ceil` nodes over measurable random
variables into synthetic measurable nodes (`MeasurableClip`, `MeasurableRound`)
and registers closed-form log-probability rules for them.

The embedding below mirrors the source:
  * tensor values are lists of extended rationals (`ExtQ`), so the
    `-inf`/`+inf` bound sentinels, `np.isinf`/`np.isneginf` tests and the
    elementwise `at.all(at.le(lower, upper))` guard are modelled exactly;
  * log-space quantities live in an abstract type `R` equipped with the
    numerically stable primitives (`log1mexp`, `logaddexp`, `logdiffexp`) and
    the base variable's `logprob`/`logcdf` rules, so theorems about which
    expression a rule returns are interpretation-independent;
  * the symbolic `at.switch` graphs built by `clip_logprob` are embedded as
    the functions of the observed value they denote, with the same nesting
    and condition order as the source, and `CheckParameterValue` becomes an
    `Except`-level runtime failure.
-/

namespace PyMCCensoring

/-- Decidable equality of evaluation results. -/
instance {ε α : Type} [DecidableEq ε] [DecidableEq α] : DecidableEq (Except ε α) :=
  fun a b =>
    match a, b with
    | Except.ok x, Except.ok y =>
        if h : x = y then Decidable.isTrue (by rw [h])
        else Decidable.isFalse (by simp [h])
    | Except.error x, Except.error y =>
        if h : x = y then Decidable.isTrue (by rw [h])
        else Decidable.isFalse (by simp [h])
    | Except.ok _, Except.error _ => Decidable.isFalse (by simp)
    | Except.error _, Except.ok _ => Decidable.isFalse (by simp)

/-- Extended rationals: the value domain of tensor entries, with the infinities
used by the bound sentinels (`at.constant(-np.inf)` / `at.constant(np.inf)`). -/
inductive ExtQ where
  | negInf : ExtQ
  | fin (q : ℚ) : ExtQ
  | posInf : ExtQ
deriving DecidableEq, Repr

/-- Strict order on extended rationals, as `at.lt`/`at.gt` evaluate it. -/
def ExtQ.blt : ExtQ → ExtQ → Bool
  | _, ExtQ.negInf => false
  | ExtQ.negInf, _ => true
  | ExtQ.posInf, _ => false
  | ExtQ.fin a, ExtQ.fin b => decide (a < b)
  | ExtQ.fin _, ExtQ.posInf => true

/-- Non-strict order on extended rationals, as `at.le` evaluates it. -/
def ExtQ.ble : ExtQ → ExtQ → Bool
  | ExtQ.negInf, _ => true
  | _, ExtQ.posInf => true
  | ExtQ.fin a, ExtQ.fin b => decide (a ≤ b)
  | _, _ => false

/-- Test for either infinity, as `np.isinf`. -/
def ExtQ.isInf : ExtQ → Bool
  | ExtQ.negInf => true
  | ExtQ.posInf => true
  | ExtQ.fin _ => false

/-- Test for negative infinity, as `np.isneginf`. -/
def ExtQ.isNegInf : ExtQ → Bool
  | ExtQ.negInf => true
  | _ => false

/-- The dtype of a tensor variable, as far as the source inspects it
(`dtype.startswith("int")` / `dtype.startswith("float")`). -/
inductive Dtype where
  | floatDt : Dtype
  | intDt : Dtype
  | otherDt : Dtype
deriving DecidableEq, Repr

/-- Mirrors `dtype.startswith("int")`. -/
def Dtype.startsWithInt : Dtype → Bool
  | Dtype.intDt => true
  | _ => false

/-- Mirrors `dtype.startswith("float")`. -/
def Dtype.startsWithFloat : Dtype → Bool
  | Dtype.floatDt => true
  | _ => false

/-- A bound input of a clip node: either a `TensorConstant` with its entry
values, or any other graph variable, identified by its node id (runtime
values for the latter come from an environment). -/
inductive ClipBound where
  | const (xs : List ExtQ) : ClipBound
  | sym (id : Nat) : ClipBound
deriving DecidableEq, Repr

/-- Mirrors `isinstance(b, TensorConstant) and np.all(np.isinf(b.value))`:
the test that makes `clip_logprob` skip the upper-bound branches. -/
def ClipBound.isInfConst : ClipBound → Bool
  | ClipBound.const xs => xs.all ExtQ.isInf
  | ClipBound.sym _ => false

/-- Mirrors `isinstance(b, TensorConstant) and np.all(np.isneginf(b.value))`:
the test that makes `clip_logprob` skip the lower-bound branches. -/
def ClipBound.isNegInfConst : ClipBound → Bool
  | ClipBound.const xs => xs.all ExtQ.isNegInf
  | ClipBound.sym _ => false

/-- Runtime entry values of a bound: a constant yields its own entries, any
other variable is looked up in the evaluation environment. -/
def ClipBound.vals (env : Nat → List ExtQ) : ClipBound → List ExtQ
  | ClipBound.const xs => xs
  | ClipBound.sym i => env i

/-- Structural facts about a base random variable that the pattern matchers
inspect: node identity, whether it has an owner whose op is a
`MeasurableVariable`, and its dtype. -/
structure RVInfo where
  id : Nat
  hasOwner : Bool
  ownerIsMeasurable : Bool
  dtype : Dtype
deriving DecidableEq, Repr

/-- Mirrors `assign_custom_measurable_outputs(base_var.owner)`: the returned
base variable is no longer independently measurable. -/
def assign_custom_measurable_outputs (rv : RVInfo) : RVInfo :=
  ⟨rv.id, rv.hasOwner, false, rv.dtype⟩

/-- An elementwise clip node offered to the rewriter, after the op-kind
pattern (`Elemwise` wrapping a scalar `Clip`, not yet a `MeasurableClip`)
has matched: its three inputs. A bound that is literally the base variable
appears as `ClipBound.sym base.id`. -/
structure ClipNode where
  base : RVInfo
  lower : ClipBound
  upper : ClipBound
deriving DecidableEq, Repr

/-- The synthetic `MeasurableClip` node built by `find_measurable_clips`. -/
structure MeasurableClip where
  base : RVInfo
  lower : ClipBound
  upper : ClipBound
deriving DecidableEq, Repr

/-- Mirrors `find_measurable_clips`: eligibility requires the base variable
to have a measurable owner and no entry in `rv_values`; a bound that is the
base variable itself is replaced by an infinity-constant sentinel; the base
is made unmeasurable in the proposed `MeasurableClip` node. -/
def find_measurable_clips (rv_values : List Nat) (node : ClipNode) :
    Option MeasurableClip :=
  if ¬ (node.base.hasOwner = true ∧ node.base.ownerIsMeasurable = true ∧
        rv_values.contains node.base.id = false) then
    none
  else
    let lower_bound :=
      if node.lower = ClipBound.sym node.base.id then ClipBound.const [ExtQ.negInf]
      else node.lower
    let upper_bound :=
      if node.upper = ClipBound.sym node.base.id then ClipBound.const [ExtQ.posInf]
      else node.upper
    some ⟨assign_custom_measurable_outputs node.base, lower_bound, upper_bound⟩

/-- The numerically stable log-space primitives the density rules assemble
their results from, together with the `-inf` out-of-support value. They are
abstract: theorems below hold for every interpretation. -/
structure LogOps (R : Type) where
  negInf : R
  log1mexp : R → R
  logaddexp : R → R → R
  logdiffexp : R → R → R

/-- The base random variable as the density rules see it: its dtype and its
registered elementwise `_logprob` and `_logcdf` rules, evaluated at a
(finite) observed entry. -/
structure BaseRV (R : Type) where
  dtype : Dtype
  logprob : ℚ → R
  logcdf : ℚ → R

/-- Numpy-style broadcast of a length-one tensor against length `n`. -/
def bcast (n : Nat) : List ExtQ → List ExtQ
  | [x] => List.replicate n x
  | xs => xs

/-- Elementwise zip of three lists, truncating at the shortest. -/
def zipWith3 {α β γ δ : Type} (f : α → β → γ → δ) :
    List α → List β → List γ → List δ
  | a :: as, b :: bs, c :: cs => f a b c :: zipWith3 f as bs cs
  | _, _, _ => []

/-- The condition checked by the `CheckParameterValue("lower_bound <= upper_bound")`
guard: `at.all(at.le(lower, upper))` over the entries. -/
def boundsOrdered (lbs ubs : List ExtQ) : Bool :=
  (List.zipWith ExtQ.ble lbs ubs).all id

/-- One entry of the piecewise log-density graph that `clip_logprob` builds:
the nested `at.switch` structure of the source, with the upper-bound switch
built first and the lower-bound switch wrapped outside it, each bound's
branches present exactly when the bound is not its infinity sentinel, and
the discrete upper-boundary correction applied for integer dtypes. -/
def clip_logprob_elem {R : Type} (ops : LogOps R) (base : BaseRV R)
    (is_upper_bounded is_lower_bounded : Bool) (lb ub : ExtQ) (v : ℚ) : R :=
  let logprob := base.logprob v
  let logcdf := base.logcdf v
  let logprob1 :=
    if is_upper_bounded then
      let logccdf := ops.log1mexp logcdf
      let logccdf :=
        if base.dtype.startsWithInt then ops.logaddexp logccdf logprob else logccdf
      if ExtQ.fin v = ub then logccdf
      else if ExtQ.blt ub (ExtQ.fin v) then ops.negInf
      else logprob
    else logprob
  if is_lower_bounded then
    if ExtQ.fin v = lb then logcdf
    else if ExtQ.blt (ExtQ.fin v) lb then ops.negInf
    else logprob1
  else logprob1

/-- Mirrors `clip_logprob`: the log-probability of a `MeasurableClip` node at
an observed value tensor, evaluated with runtime bound values from `env`.
When both bounds are non-sentinel the result is wrapped in the
`CheckParameterValue` guard, which fails evaluation when some entry violates
`lower_bound <= upper_bound`. -/
def clip_logprob {R : Type} (ops : LogOps R) (base : BaseRV R)
    (lower_bound upper_bound : ClipBound) (env : Nat → List ExtQ)
    (values : List ℚ) : Except String (List R) :=
  let is_upper_bounded := ! upper_bound.isInfConst
  let is_lower_bounded := ! lower_bound.isNegInfConst
  let lbs := bcast values.length (lower_bound.vals env)
  let ubs := bcast values.length (upper_bound.vals env)
  let res := zipWith3
    (fun lb ub v => clip_logprob_elem ops base is_upper_bounded is_lower_bounded lb ub v)
    lbs ubs values
  if is_lower_bounded && is_upper_bounded then
    if boundsOrdered lbs ubs then Except.ok res
    else Except.error "lower_bound <= upper_bound"
  else Except.ok res

/-- The three scalar ops a `MeasurableRound` node can carry
(`RoundHalfToEven`, `Floor`, `Ceil`). -/
inductive RoundKind where
  | roundHalfToEven : RoundKind
  | floor : RoundKind
  | ceil : RoundKind
deriving DecidableEq, Repr

/-- An elementwise rounding node offered to the rewriter, after the op-kind
pattern (`Elemwise` wrapping one of `MeasurableRound.valid_scalar_types`,
not yet a `MeasurableRound`) has matched: its single input and which
rounding op it is. -/
structure RoundNode where
  base : RVInfo
  kind : RoundKind
deriving DecidableEq, Repr

/-- The synthetic `MeasurableRound` node built by `find_measurable_roundings`. -/
structure MeasurableRound where
  base : RVInfo
  kind : RoundKind
deriving DecidableEq, Repr

/-- Mirrors `find_measurable_roundings`: eligibility additionally requires a
continuous (float) dtype on the base variable. -/
def find_measurable_roundings (rv_values : List Nat) (node : RoundNode) :
    Option MeasurableRound :=
  if ¬ (node.base.hasOwner = true ∧ node.base.ownerIsMeasurable = true ∧
        rv_values.contains node.base.id = false ∧
        node.base.dtype.startsWithFloat = true) then
    none
  else
    some ⟨assign_custom_measurable_outputs node.base, node.kind⟩

/-- Numpy/aesara `at.round`: round half to even (banker's rounding). -/
def roundHalfToEvenQ (q : ℚ) : ℚ :=
  let f : ℤ := Rat.floor q
  let r : ℚ := q - (f : ℚ)
  if r < 1/2 then (f : ℚ)
  else if 1/2 < r then ((f + 1 : ℤ) : ℚ)
  else if f % 2 = 0 then (f : ℚ) else ((f + 1 : ℤ) : ℚ)

/-- The deterministic snap a rounding op applies to a value. -/
def RoundKind.snap : RoundKind → ℚ → ℚ
  | RoundKind.roundHalfToEven, q => roundHalfToEvenQ q
  | RoundKind.floor, q => ((Rat.floor q : ℤ) : ℚ)
  | RoundKind.ceil, q => ((Rat.ceil q : ℤ) : ℚ)

/-- Mirrors `round_logprob`: the observed value is first snapped by the op's
own rounding function, the kind-specific bracketing points are formed, and
the result is `logdiffexp` of the base log-CDF at the two points. -/
def round_logprob {R : Type} (ops : LogOps R) (base : BaseRV R)
    (kind : RoundKind) (value : ℚ) : R :=
  match kind with
  | RoundKind.roundHalfToEven =>
      let value := roundHalfToEvenQ value
      let value_upper := value + 1/2
      let value_lower := value - 1/2
      ops.logdiffexp (base.logcdf value_upper) (base.logcdf value_lower)
  | RoundKind.floor =>
      let value := ((Rat.floor value : ℤ) : ℚ)
      let value_upper := value + 1
      let value_lower := value
      ops.logdiffexp (base.logcdf value_upper) (base.logcdf value_lower)
  | RoundKind.ceil =>
      let value := ((Rat.ceil value : ℤ) : ℚ)
      let value_upper := value
      let value_lower := value - 1
      ops.logdiffexp (base.logcdf value_upper) (base.logcdf value_lower)

/-- Modelled from the spec: the top-level joint log-probability driver (not
under `src/`; only `factorized_joint_logprob`'s behaviour is described). It
walks the rewritten graph and, for a clip node whose rewrite was not
proposed, raises a structured failure naming the underivable node. -/
def derive_clip (rv_values : List Nat) (node : ClipNode) (clipName : String) :
    Except String MeasurableClip :=
  match find_measurable_clips rv_values node with
  | some m => Except.ok m
  | none => Except.error
      ("The logprob terms of the following value variables could not be derived: \x7b"
        ++ clipName ++ "\x7d")

/-! Concrete interpretations used to evaluate the abstract log-space
primitives on sample inputs. -/

/-- A concrete integer interpretation of the log-space primitives. -/
def opsW : LogOps ℤ := ⟨-1000, fun x => x - 7, fun a b => a + b + 100, fun a b => a - b + 3⟩

/-- A concrete base logprob rule. -/
def lpfW : ℚ → ℤ := fun q => 2 * q.num + 1

/-- A concrete base logcdf rule. -/
def lcfW : ℚ → ℤ := fun q => 3 * q.num + 5

/-- A concrete continuous base variable. -/
def baseFloatW : BaseRV ℤ := ⟨Dtype.floatDt, lpfW, lcfW⟩

/-- A concrete integer-dtype base variable. -/
def baseIntW : BaseRV ℤ := ⟨Dtype.intDt, lpfW, lcfW⟩

/-- A concrete empty bound-value environment. -/
def envW : Nat → List ExtQ := fun _ => []

/-! Helper lemmas. -/

/-- Sanity: `Rat.floor` agrees with the mathematical floor. -/
theorem ratFloor_eq_intFloor (q : ℚ) : (Rat.floor q : ℤ) = ⌊q⌋ :=
  (Rat.floor_def' q).trans Rat.floor_def.symm

/-- `Rat.floor` fixes integers. -/
theorem ratFloor_intCast (n : ℤ) : Rat.floor ((n : ℤ) : ℚ) = n := by
  simp [Rat.floor]

/-- `Rat.ceil` fixes integers. -/
theorem ratCeil_intCast (n : ℤ) : Rat.ceil ((n : ℤ) : ℚ) = n := by
  simp [Rat.ceil]

/-- Round-half-to-even fixes integers. -/
theorem roundHalfToEvenQ_intCast (n : ℤ) : roundHalfToEvenQ ((n : ℤ) : ℚ) = (n : ℚ) := by
  simp [roundHalfToEvenQ, ratFloor_intCast]

/-- Round-half-to-even always lands on an integer. -/
theorem roundHalfToEvenQ_isInt (q : ℚ) : ∃ n : ℤ, roundHalfToEvenQ q = (n : ℚ) := by
  simp only [roundHalfToEvenQ]
  split_ifs with h1 h2 h3
  · exact ⟨Rat.floor q, rfl⟩
  · exact ⟨Rat.floor q + 1, rfl⟩
  · exact ⟨Rat.floor q, rfl⟩
  · exact ⟨Rat.floor q + 1, rfl⟩

/-- Zipping three cons cells. -/
theorem zipWith3_cons {α β γ δ : Type} (f : α → β → γ → δ) (a : α) (b : β) (c : γ)
    (as : List α) (bs : List β) (cs : List γ) :
    zipWith3 f (a :: as) (b :: bs) (c :: cs) = f a b c :: zipWith3 f as bs cs := rfl

/-- Zipping replicated lists is a map. -/
theorem zipWith3_replicate {α β γ δ : Type} (f : α → β → γ → δ) (x : α) (y : β)
    (cs : List γ) :
    zipWith3 f (List.replicate cs.length x) (List.replicate cs.length y) cs =
      cs.map (fun c => f x y c) := by
  induction cs with
  | nil => rfl
  | cons c cs ih => simp [List.replicate, zipWith3, ih]

/-- Evaluation of `clip_logprob` at a two-sided clip with singleton value and
bound tensors. -/
theorem clip_logprob_two_sided {R : Type} (ops : LogOps R) (base : BaseRV R)
    (lower upper : ClipBound) (env : Nat → List ExtQ) (lb ub : ExtQ) (v : ℚ)
    (hl : lower.isNegInfConst = false) (hu : upper.isInfConst = false)
    (hbl : lower.vals env = [lb]) (hbu : upper.vals env = [ub]) :
    clip_logprob ops base lower upper env [v] =
      if ExtQ.ble lb ub then
        Except.ok [clip_logprob_elem ops base true true lb ub v]
      else Except.error "lower_bound <= upper_bound" := by
  simp only [clip_logprob, hl, hu, hbl, hbu, Bool.not_false, Bool.and_self, List.length_singleton,
    bcast, List.replicate, boundsOrdered, List.zipWith, List.all, zipWith3, Bool.and_true, id]
  cases h : ExtQ.ble lb ub <;> simp [h]

/-- Below a finite lower bound the element formula yields `-inf`. -/
theorem clip_elem_below {R : Type} (ops : LogOps R) (base : BaseRV R) (lo hi v : ℚ)
    (h : v < lo) :
    clip_logprob_elem ops base true true (ExtQ.fin lo) (ExtQ.fin hi) v = ops.negInf := by
  have hne : v ≠ lo := ne_of_lt h
  simp [clip_logprob_elem, ExtQ.blt, hne, h]

/-- At a finite lower bound the element formula yields the base log-CDF,
whatever the upper bound and dtype are. -/
theorem clip_elem_lower_eq {R : Type} (ops : LogOps R) (base : BaseRV R) (lo hi v : ℚ)
    (h : v = lo) :
    clip_logprob_elem ops base true true (ExtQ.fin lo) (ExtQ.fin hi) v = base.logcdf v := by
  simp [clip_logprob_elem, h]

/-- Above a finite upper bound (with ordered bounds) the element formula
yields `-inf`. -/
theorem clip_elem_above {R : Type} (ops : LogOps R) (base : BaseRV R) (lo hi v : ℚ)
    (hord : lo ≤ hi) (h : hi < v) :
    clip_logprob_elem ops base true true (ExtQ.fin lo) (ExtQ.fin hi) v = ops.negInf := by
  have h1 : v ≠ lo := ne_of_gt (lt_of_le_of_lt hord h)
  have h2 : ¬ v < lo := not_lt_of_gt (lt_of_le_of_lt hord h)
  have h3 : v ≠ hi := ne_of_gt h
  simp [clip_logprob_elem, ExtQ.blt, h1, h2, h3, h]

/-- At a finite upper bound strictly above the lower bound the element formula
yields the boundary-mass term, with the discrete correction for integer
dtypes. -/
theorem clip_elem_upper_eq {R : Type} (ops : LogOps R) (base : BaseRV R) (lo hi v : ℚ)
    (h : v = hi) (hlt : lo < v) :
    clip_logprob_elem ops base true true (ExtQ.fin lo) (ExtQ.fin hi) v =
      (if base.dtype.startsWithInt then
        ops.logaddexp (ops.log1mexp (base.logcdf v)) (base.logprob v)
      else ops.log1mexp (base.logcdf v)) := by
  subst h
  have h1 : v ≠ lo := ne_of_gt hlt
  have h2 : ¬ v < lo := not_lt_of_gt hlt
  simp [clip_logprob_elem, ExtQ.blt, h1, h2]

/-- Strictly inside the bounds the element formula yields the base
log-probability. -/
theorem clip_elem_interior {R : Type} (ops : LogOps R) (base : BaseRV R) (lo hi v : ℚ)
    (h1 : lo < v) (h2 : v < hi) :
    clip_logprob_elem ops base true true (ExtQ.fin lo) (ExtQ.fin hi) v = base.logprob v := by
  have ha : v ≠ lo := ne_of_gt h1
  have hb : ¬ v < lo := not_lt_of_gt h1
  have hc : v ≠ hi := ne_of_lt h2
  have hd : ¬ hi < v := not_lt_of_gt h2
  simp [clip_logprob_elem, ExtQ.blt, ha, hb, hc, hd]

/-- Broadcast of a singleton is replication. -/
theorem bcast_singleton (n : Nat) (x : ExtQ) : bcast n [x] = List.replicate n x := rfl

/-- Evaluation of `clip_logprob` when the lower bound is the `-inf` sentinel
produced by `find_measurable_clips`: no guard, and only the upper-bound
branches remain. -/
theorem clip_logprob_upper_only {R : Type} (ops : LogOps R) (base : BaseRV R)
    (upper : ClipBound) (env : Nat → List ExtQ) (ub : ExtQ) (v : ℚ)
    (hu : upper.isInfConst = false) (hbu : upper.vals env = [ub]) :
    clip_logprob ops base (ClipBound.const [ExtQ.negInf]) upper env [v] =
      Except.ok [clip_logprob_elem ops base true false ExtQ.negInf ub v] := by
  simp [clip_logprob, hu, hbu, bcast_singleton, List.replicate, zipWith3,
    ClipBound.isNegInfConst, ExtQ.isNegInf]

/-- With no lower-bound branches, at the finite upper bound the element
formula yields the boundary-mass term. -/
theorem clip_elem_noLower_upper_eq {R : Type} (ops : LogOps R) (base : BaseRV R)
    (lb : ExtQ) (hi v : ℚ) (h : v = hi) :
    clip_logprob_elem ops base true false lb (ExtQ.fin hi) v =
      (if base.dtype.startsWithInt then
        ops.logaddexp (ops.log1mexp (base.logcdf v)) (base.logprob v)
      else ops.log1mexp (base.logcdf v)) := by
  subst h
  simp [clip_logprob_elem]

/-- With no lower-bound branches, above the finite upper bound the element
formula yields `-inf`. -/
theorem clip_elem_noLower_above {R : Type} (ops : LogOps R) (base : BaseRV R)
    (lb : ExtQ) (hi v : ℚ) (h : hi < v) :
    clip_logprob_elem ops base true false lb (ExtQ.fin hi) v = ops.negInf := by
  have hne : v ≠ hi := ne_of_gt h
  simp [clip_logprob_elem, ExtQ.blt, hne, h]

/-- With no lower-bound branches, anywhere weakly below the finite upper bound
(other than at it) the element formula yields the base log-probability. -/
theorem clip_elem_noLower_other {R : Type} (ops : LogOps R) (base : BaseRV R)
    (lb : ExtQ) (hi v : ℚ) (h1 : ¬ hi < v) (h2 : v ≠ hi) :
    clip_logprob_elem ops base true false lb (ExtQ.fin hi) v = base.logprob v := by
  simp [clip_logprob_elem, ExtQ.blt, h1, h2]

/-- The element formula with both bounds skipped is the base log-probability. -/
theorem clip_elem_unbounded {R : Type} (ops : LogOps R) (base : BaseRV R)
    (lb ub : ExtQ) (v : ℚ) :
    clip_logprob_elem ops base false false lb ub v = base.logprob v := by
  simp [clip_logprob_elem]

/-- Evaluation of `clip_logprob` when both bounds are the infinity sentinels:
no switches, no guard, just the base log-probability elementwise. -/
theorem clip_logprob_unbounded {R : Type} (ops : LogOps R) (base : BaseRV R)
    (env : Nat → List ExtQ) (values : List ℚ) :
    clip_logprob ops base (ClipBound.const [ExtQ.negInf]) (ClipBound.const [ExtQ.posInf])
      env values = Except.ok (values.map base.logprob) := by
  simp only [clip_logprob, ClipBound.isNegInfConst, ClipBound.isInfConst, ClipBound.vals,
    List.all, ExtQ.isNegInf, ExtQ.isInf, Bool.and_true, Bool.not_true, Bool.and_false,
    Bool.false_and, bcast_singleton, if_false]
  rw [zipWith3_replicate]
  simp [clip_elem_unbounded]

/-! Claim theorems. -/

/-- C1: for a `MeasurableClip` over a continuous (float) base with both bounds
finite and non-sentinel (and a nondegenerate interval `lo < hi`), the derived
log-density at an observed value `v` is `-inf` outside `[lo, hi]`, the base
log-CDF at `v = lo`, `log1mexp` of the base log-CDF at `v = hi`, and the base
log-probability strictly inside, with equality at a bound taking precedence
over the open-interval and out-of-range branches. -/
theorem clip_logprob_continuous_two_sided {R : Type} (ops : LogOps R)
    (lpf lcf : ℚ → R) (lower upper : ClipBound) (env : Nat → List ExtQ)
    (lo hi v : ℚ)
    (hl : lower.isNegInfConst = false) (hu : upper.isInfConst = false)
    (hbl : lower.vals env = [ExtQ.fin lo]) (hbu : upper.vals env = [ExtQ.fin hi])
    (hord : lo < hi) :
    (v < lo →
      clip_logprob ops ⟨Dtype.floatDt, lpf, lcf⟩ lower upper env [v] =
        Except.ok [ops.negInf]) ∧
    (hi < v →
      clip_logprob ops ⟨Dtype.floatDt, lpf, lcf⟩ lower upper env [v] =
        Except.ok [ops.negInf]) ∧
    (v = lo →
      clip_logprob ops ⟨Dtype.floatDt, lpf, lcf⟩ lower upper env [v] =
        Except.ok [lcf v]) ∧
    (v = hi →
      clip_logprob ops ⟨Dtype.floatDt, lpf, lcf⟩ lower upper env [v] =
        Except.ok [ops.log1mexp (lcf v)]) ∧
    (lo < v → v < hi →
      clip_logprob ops ⟨Dtype.floatDt, lpf, lcf⟩ lower upper env [v] =
        Except.ok [lpf v]) := by
  have key := clip_logprob_two_sided ops ⟨Dtype.floatDt, lpf, lcf⟩ lower upper env
    (ExtQ.fin lo) (ExtQ.fin hi) v hl hu hbl hbu
  have hble : ExtQ.ble (ExtQ.fin lo) (ExtQ.fin hi) = true := by
    simp [ExtQ.ble, le_of_lt hord]
  rw [hble, if_pos rfl] at key
  refine ⟨fun h => ?_, fun h => ?_, fun h => ?_, fun h => ?_, fun h1 h2 => ?_⟩
  · rw [key, clip_elem_below ops _ lo hi v h]
  · rw [key, clip_elem_above ops _ lo hi v (le_of_lt hord) h]
  · rw [key, clip_elem_lower_eq ops _ lo hi v h]
  · rw [key, clip_elem_upper_eq ops _ lo hi v h (h ▸ hord)]
    simp [Dtype.startsWithInt]
  · rw [key, clip_elem_interior ops _ lo hi v h1 h2]

/-- C1 witness: the interior branch at base bounds `[-2, 2]` and value `0`. -/
theorem clip_logprob_continuous_two_sided_witness :
    clip_logprob opsW ⟨Dtype.floatDt, lpfW, lcfW⟩ (ClipBound.const [ExtQ.fin (-2)])
      (ClipBound.const [ExtQ.fin 2]) envW [0] = Except.ok [lpfW 0] :=
  (clip_logprob_continuous_two_sided opsW lpfW lcfW (ClipBound.const [ExtQ.fin (-2)])
    (ClipBound.const [ExtQ.fin 2]) envW (-2) 2 0 rfl rfl rfl rfl
    (by norm_num)).2.2.2.2 (by norm_num) (by norm_num)

/-- C2: for an integer-dtype base, the branch taken when the observed value
equals the finite upper bound is `logaddexp(log1mexp(logcdf(ub)), logprob(ub))`,
the log of `P(X >= ub)`. -/
theorem clip_logprob_discrete_upper {R : Type} (ops : LogOps R)
    (lpf lcf : ℚ → R) (lower upper : ClipBound) (env : Nat → List ExtQ)
    (lo hi v : ℚ)
    (hl : lower.isNegInfConst = false) (hu : upper.isInfConst = false)
    (hbl : lower.vals env = [ExtQ.fin lo]) (hbu : upper.vals env = [ExtQ.fin hi])
    (hv : v = hi) (hord : lo ≤ hi) (hne : lo ≠ v) :
    clip_logprob ops ⟨Dtype.intDt, lpf, lcf⟩ lower upper env [v] =
      Except.ok [ops.logaddexp (ops.log1mexp (lcf hi)) (lpf hi)] := by
  have key := clip_logprob_two_sided ops ⟨Dtype.intDt, lpf, lcf⟩ lower upper env
    (ExtQ.fin lo) (ExtQ.fin hi) v hl hu hbl hbu
  have hble : ExtQ.ble (ExtQ.fin lo) (ExtQ.fin hi) = true := by
    simp [ExtQ.ble, hord]
  rw [hble, if_pos rfl] at key
  have hlt : lo < v := lt_of_le_of_ne (hv ▸ hord) hne
  rw [key, clip_elem_upper_eq ops _ lo hi v hv hlt]
  simp [Dtype.startsWithInt, hv]

/-- C2 witness: Poisson-style clip with bounds `[1, 4]` at value `4`. -/
theorem clip_logprob_discrete_upper_witness :
    clip_logprob opsW ⟨Dtype.intDt, lpfW, lcfW⟩ (ClipBound.const [ExtQ.fin 1])
      (ClipBound.const [ExtQ.fin 4]) envW [4] =
      Except.ok [opsW.logaddexp (opsW.log1mexp (lcfW 4)) (lpfW 4)] :=
  clip_logprob_discrete_upper opsW lpfW lcfW (ClipBound.const [ExtQ.fin 1])
    (ClipBound.const [ExtQ.fin 4]) envW 1 4 4 rfl rfl rfl rfl rfl
    (by norm_num) (by norm_num)

/-- C10: with both bounds non-sentinel, the lower-bound switch is outermost,
so an observed value equal to the lower bound yields the base log-CDF
regardless of its relation to the upper bound; in particular at
`lo = hi = v` the lower-boundary branch wins. -/
theorem clip_logprob_lower_eq_outermost {R : Type} (ops : LogOps R) (base : BaseRV R)
    (lower upper : ClipBound) (env : Nat → List ExtQ) (lo hi v : ℚ)
    (hl : lower.isNegInfConst = false) (hu : upper.isInfConst = false)
    (hbl : lower.vals env = [ExtQ.fin lo]) (hbu : upper.vals env = [ExtQ.fin hi])
    (hv : v = lo) (hord : lo ≤ hi) :
    clip_logprob ops base lower upper env [v] = Except.ok [base.logcdf v] := by
  have key := clip_logprob_two_sided ops base lower upper env
    (ExtQ.fin lo) (ExtQ.fin hi) v hl hu hbl hbu
  have hble : ExtQ.ble (ExtQ.fin lo) (ExtQ.fin hi) = true := by
    simp [ExtQ.ble, hord]
  rw [hble, if_pos rfl] at key
  rw [key, clip_elem_lower_eq ops base lo hi v hv]

/-- C10 witness: the degenerate case `lo = hi = v = 2` returns the log-CDF. -/
theorem clip_logprob_lower_eq_outermost_witness :
    clip_logprob opsW baseIntW (ClipBound.const [ExtQ.fin 2])
      (ClipBound.const [ExtQ.fin 2]) envW [2] = Except.ok [baseIntW.logcdf 2] :=
  clip_logprob_lower_eq_outermost opsW baseIntW (ClipBound.const [ExtQ.fin 2])
    (ClipBound.const [ExtQ.fin 2]) envW 2 2 2 rfl rfl rfl rfl rfl le_rfl

/-- C3: a bound input that is the base variable itself is replaced by the
matching infinity-constant sentinel by `find_measurable_clips` (lower
self-reference becomes `-inf`, upper becomes `+inf`), and `clip_logprob` on
the resulting one-sided node produces a two-branch expression: `-inf` above
the finite bound, the boundary-mass term at it, and the base log-probability
otherwise, with no condition on the sentinel side. -/
theorem clip_one_sided (rv_values : List Nat) (b : RVInfo)
    (lowerIn upperIn : ClipBound) {R : Type} (ops : LogOps R) (base : BaseRV R)
    (env : Nat → List ExtQ) (hi v : ℚ)
    (hOwn : b.hasOwner = true) (hMeas : b.ownerIsMeasurable = true)
    (hObs : rv_values.contains b.id = false)
    (hneL : lowerIn ≠ ClipBound.sym b.id) (hneU : upperIn ≠ ClipBound.sym b.id)
    (hu : upperIn.isInfConst = false) (hbu : upperIn.vals env = [ExtQ.fin hi]) :
    (find_measurable_clips rv_values ⟨b, ClipBound.sym b.id, upperIn⟩ =
      some ⟨assign_custom_measurable_outputs b, ClipBound.const [ExtQ.negInf], upperIn⟩) ∧
    (find_measurable_clips rv_values ⟨b, lowerIn, ClipBound.sym b.id⟩ =
      some ⟨assign_custom_measurable_outputs b, lowerIn, ClipBound.const [ExtQ.posInf]⟩) ∧
    (hi < v →
      clip_logprob ops base (ClipBound.const [ExtQ.negInf]) upperIn env [v] =
        Except.ok [ops.negInf]) ∧
    (v = hi →
      clip_logprob ops base (ClipBound.const [ExtQ.negInf]) upperIn env [v] =
        Except.ok [if base.dtype.startsWithInt then
            ops.logaddexp (ops.log1mexp (base.logcdf v)) (base.logprob v)
          else ops.log1mexp (base.logcdf v)]) ∧
    (¬ hi < v → v ≠ hi →
      clip_logprob ops base (ClipBound.const [ExtQ.negInf]) upperIn env [v] =
        Except.ok [base.logprob v]) := by
  have hmem : b.id ∉ rv_values := by simpa using hObs
  refine ⟨?_, ?_, fun h => ?_, fun h => ?_, fun h1 h2 => ?_⟩
  · simp [find_measurable_clips, hOwn, hMeas, hObs, hmem, hneU]
  · simp [find_measurable_clips, hOwn, hMeas, hObs, hmem, hneL]
  · rw [clip_logprob_upper_only ops base upperIn env (ExtQ.fin hi) v hu hbu,
      clip_elem_noLower_above ops base ExtQ.negInf hi v h]
  · rw [clip_logprob_upper_only ops base upperIn env (ExtQ.fin hi) v hu hbu,
      clip_elem_noLower_upper_eq ops base ExtQ.negInf hi v h]
  · rw [clip_logprob_upper_only ops base upperIn env (ExtQ.fin hi) v hu hbu,
      clip_elem_noLower_other ops base ExtQ.negInf hi v h1 h2]

/-- C3 witness: `clip(x, x, 1)` gets its lower bound replaced by the `-inf`
sentinel. -/
theorem clip_one_sided_witness :
    find_measurable_clips [] ⟨⟨7, true, true, Dtype.floatDt⟩, ClipBound.sym 7,
        ClipBound.const [ExtQ.fin 1]⟩ =
      some ⟨⟨7, true, false, Dtype.floatDt⟩, ClipBound.const [ExtQ.negInf],
        ClipBound.const [ExtQ.fin 1]⟩ :=
  (clip_one_sided [] ⟨7, true, true, Dtype.floatDt⟩ (ClipBound.const [ExtQ.fin 0])
    (ClipBound.const [ExtQ.fin 1]) opsW baseFloatW envW 1 0 rfl rfl rfl
    (by decide) (by decide) rfl rfl).1

/-- C6: for `clip(x, x, x)` both bounds become infinity sentinels, and the
derived log-density is exactly the base log-probability at every observed
value, with no switch and no guard. -/
theorem clip_useless (rv_values : List Nat) (b : RVInfo) {R : Type}
    (ops : LogOps R) (base : BaseRV R) (env : Nat → List ExtQ) (values : List ℚ)
    (hOwn : b.hasOwner = true) (hMeas : b.ownerIsMeasurable = true)
    (hObs : rv_values.contains b.id = false) :
    (find_measurable_clips rv_values ⟨b, ClipBound.sym b.id, ClipBound.sym b.id⟩ =
      some ⟨assign_custom_measurable_outputs b, ClipBound.const [ExtQ.negInf],
        ClipBound.const [ExtQ.posInf]⟩) ∧
    (clip_logprob ops base (ClipBound.const [ExtQ.negInf]) (ClipBound.const [ExtQ.posInf])
        env values = Except.ok (values.map base.logprob)) := by
  have hmem : b.id ∉ rv_values := by simpa using hObs
  constructor
  · simp [find_measurable_clips, hOwn, hMeas, hObs, hmem]
  · exact clip_logprob_unbounded ops base env values

/-- C6 witness: the no-op clip on a vector of three values. -/
theorem clip_useless_witness :
    find_measurable_clips [] ⟨⟨7, true, true, Dtype.floatDt⟩, ClipBound.sym 7,
        ClipBound.sym 7⟩ =
      some ⟨⟨7, true, false, Dtype.floatDt⟩, ClipBound.const [ExtQ.negInf],
        ClipBound.const [ExtQ.posInf]⟩ ∧
    clip_logprob opsW baseFloatW (ClipBound.const [ExtQ.negInf])
        (ClipBound.const [ExtQ.posInf]) envW [-2, 0, 2] =
      Except.ok [lpfW (-2), lpfW 0, lpfW 2] :=
  clip_useless [] ⟨7, true, true, Dtype.floatDt⟩ opsW baseFloatW envW [-2, 0, 2]
    rfl rfl rfl

/-- C4: the `CheckParameterValue` guard is attached when and only when both
bounds are non-sentinel: evaluation then fails exactly on bound values
violating elementwise `lower_bound <= upper_bound`, while with a sentinel
bound evaluation always succeeds. -/
theorem clip_logprob_guard {R : Type} (ops : LogOps R) (base : BaseRV R)
    (lower upper : ClipBound) (env : Nat → List ExtQ) (values : List ℚ) :
    (lower.isNegInfConst = false → upper.isInfConst = false →
      boundsOrdered (bcast values.length (lower.vals env))
        (bcast values.length (upper.vals env)) = false →
      clip_logprob ops base lower upper env values =
        Except.error "lower_bound <= upper_bound") ∧
    (lower.isNegInfConst = false → upper.isInfConst = false →
      boundsOrdered (bcast values.length (lower.vals env))
        (bcast values.length (upper.vals env)) = true →
      ∃ rs, clip_logprob ops base lower upper env values = Except.ok rs) ∧
    ((lower.isNegInfConst = true ∨ upper.isInfConst = true) →
      ∃ rs, clip_logprob ops base lower upper env values = Except.ok rs) := by
  refine ⟨fun hl hu hord => ?_, fun hl hu hord => ?_, fun h => ?_⟩
  · simp [clip_logprob, hl, hu, hord]
  · simp [clip_logprob, hl, hu, hord]
  · rcases h with h | h <;> simp [clip_logprob, h]

/-- C4 witness: bounds `[2, 1]` fail at evaluation time. -/
theorem clip_logprob_guard_witness :
    clip_logprob opsW baseFloatW (ClipBound.const [ExtQ.fin 2])
      (ClipBound.const [ExtQ.fin 1]) envW [0] =
      Except.error "lower_bound <= upper_bound" :=
  (clip_logprob_guard opsW baseFloatW (ClipBound.const [ExtQ.fin 2])
    (ClipBound.const [ExtQ.fin 1]) envW [0]).1 rfl rfl (by decide)

/-- C5: at a grid point `n`, `round_logprob` is `logdiffexp` of the base
log-CDF at the kind-specific bracketing points: `(n - 1/2, n + 1/2)` for
round-half-to-even, `(n, n + 1)` for floor, `(n - 1, n)` for ceil; since the
primitive is abstract, the result is this very expression under every
interpretation (the raw CDFs are never subtracted outside the primitive). -/
theorem round_logprob_grid {R : Type} (ops : LogOps R) (base : BaseRV R) (n : ℤ) :
    round_logprob ops base RoundKind.roundHalfToEven ((n : ℤ) : ℚ) =
      ops.logdiffexp (base.logcdf ((n : ℚ) + 1/2)) (base.logcdf ((n : ℚ) - 1/2)) ∧
    round_logprob ops base RoundKind.floor ((n : ℤ) : ℚ) =
      ops.logdiffexp (base.logcdf ((n : ℚ) + 1)) (base.logcdf (n : ℚ)) ∧
    round_logprob ops base RoundKind.ceil ((n : ℤ) : ℚ) =
      ops.logdiffexp (base.logcdf (n : ℚ)) (base.logcdf ((n : ℚ) - 1)) := by
  refine ⟨?_, ?_, ?_⟩ <;>
    simp [round_logprob, roundHalfToEvenQ_intCast, ratFloor_intCast, ratCeil_intCast]

/-- C9: `round_logprob` first snaps the observed value with its own kind's
rounding function, so its value at any observed value equals its value at
the snapped grid point. -/
theorem round_logprob_snap_first {R : Type} (ops : LogOps R) (base : BaseRV R)
    (kind : RoundKind) (v : ℚ) :
    round_logprob ops base kind v = round_logprob ops base kind (kind.snap v) := by
  cases kind with
  | roundHalfToEven =>
      obtain ⟨n, hn⟩ := roundHalfToEvenQ_isInt v
      simp [round_logprob, RoundKind.snap, hn, roundHalfToEvenQ_intCast]
  | floor =>
      simp [round_logprob, RoundKind.snap, ratFloor_intCast]
  | ceil =>
      simp [round_logprob, RoundKind.snap, ratCeil_intCast]

/-- C7: `find_measurable_clips` proposes no rewrite (and raises no error)
exactly when the base is not measurable or already carries an observed
value; a base that is observed leaves the clip underivable, which the
joint-logprob driver surfaces as a "could not be derived" failure naming
the clipped node. -/
theorem find_measurable_clips_ownership (rv_values : List Nat) (node : ClipNode)
    (nm : String) :
    (find_measurable_clips rv_values node = none ↔
      ¬ (node.base.hasOwner = true ∧ node.base.ownerIsMeasurable = true ∧
          rv_values.contains node.base.id = false)) ∧
    (rv_values.contains node.base.id = true →
      derive_clip rv_values node nm = Except.error
        ("The logprob terms of the following value variables could not be derived: \x7b"
          ++ nm ++ "\x7d")) := by
  have hiff : find_measurable_clips rv_values node = none ↔
      ¬ (node.base.hasOwner = true ∧ node.base.ownerIsMeasurable = true ∧
          rv_values.contains node.base.id = false) := by
    unfold find_measurable_clips
    by_cases h : (node.base.hasOwner = true ∧ node.base.ownerIsMeasurable = true ∧
        rv_values.contains node.base.id = false)
    · rw [if_neg (not_not_intro h)]
      exact iff_of_false (by simp) (not_not_intro h)
    · rw [if_pos h]
      exact iff_of_true rfl h
  refine ⟨hiff, fun hobs => ?_⟩
  have hnone : find_measurable_clips rv_values node = none := by
    rw [hiff]
    intro hc
    rw [hc.2.2] at hobs
    exact Bool.false_ne_true hobs
  unfold derive_clip
  rw [hnone]

/-- C7 witness: a base that both is observed and feeds the clip makes the
named clip node underivable. -/
theorem find_measurable_clips_ownership_witness :
    derive_clip [5] ⟨⟨5, true, true, Dtype.floatDt⟩, ClipBound.sym 5,
        ClipBound.const [ExtQ.fin 1]⟩ "cens_x" =
      Except.error
        ("The logprob terms of the following value variables could not be derived: \x7b"
          ++ "cens_x" ++ "\x7d") :=
  (find_measurable_clips_ownership [5] ⟨⟨5, true, true, Dtype.floatDt⟩,
    ClipBound.sym 5, ClipBound.const [ExtQ.fin 1]⟩ "cens_x").2 rfl

/-- C8: `find_measurable_roundings` proposes a rewrite exactly when the base
is measurable, carries no observed value, and has a float dtype; an
integer-dtype base is always rejected. -/
theorem find_measurable_roundings_eligibility (rv_values : List Nat)
    (node : RoundNode) :
    ((find_measurable_roundings rv_values node).isSome = true ↔
      (node.base.hasOwner = true ∧ node.base.ownerIsMeasurable = true ∧
        rv_values.contains node.base.id = false ∧
        node.base.dtype.startsWithFloat = true)) ∧
    (node.base.dtype = Dtype.intDt →
      find_measurable_roundings rv_values node = none) := by
  have hiff : (find_measurable_roundings rv_values node).isSome = true ↔
      (node.base.hasOwner = true ∧ node.base.ownerIsMeasurable = true ∧
        rv_values.contains node.base.id = false ∧
        node.base.dtype.startsWithFloat = true) := by
    unfold find_measurable_roundings
    by_cases h : (node.base.hasOwner = true ∧ node.base.ownerIsMeasurable = true ∧
        rv_values.contains node.base.id = false ∧
        node.base.dtype.startsWithFloat = true)
    · rw [if_neg (not_not_intro h)]
      exact iff_of_true (by simp) h
    · rw [if_pos h]
      exact iff_of_false (by simp) h
  refine ⟨hiff, fun hdt => ?_⟩
  have hcond : ¬ (node.base.hasOwner = true ∧ node.base.ownerIsMeasurable = true ∧
      rv_values.contains node.base.id = false ∧
      node.base.dtype.startsWithFloat = true) := by
    intro hc
    have h3 := hc.2.2.2
    rw [hdt] at h3
    simp [Dtype.startsWithFloat] at h3
  unfold find_measurable_roundings
  rw [if_pos hcond]

/-- C8 witness: a floor of an integer-dtype base variable is rejected. -/
theorem find_measurable_roundings_eligibility_witness :
    find_measurable_roundings [] ⟨⟨5, true, true, Dtype.intDt⟩, RoundKind.floor⟩ =
      none :=
  (find_measurable_roundings_eligibility []
    ⟨⟨5, true, true, Dtype.intDt⟩, RoundKind.floor⟩).2 rfl

end PyMCCensoring
